import Mathlib

/-!
Verification of the SillyTavern-Utils wrapper library.

The definitions below are a shallow embedding of the TypeScript sources:

* `src/utils/valuetracker/index.ts` — the ValueTracker HTTP client, its
  in-memory TTL cache (`getFromCache`, `setCache`, `removeCacheEntries`),
  the per-operation cache-invalidation key lists, the request builder
  (`apiRequest`) and its error behaviour (`ValueTrackerError`).
* `src/utils/character.ts` — `getOrGenerateCharacterGuid`,
  `getCharacterMetadata`, `clearCharacterMetadata`.
* `src/utils/settings.ts` — `SettingsManager.get/set/load/save`.
* `src/utils/ui/slashCommands.ts` — `registerSlashCommand`,
  `registerMultipleSlashCommands`, `executeSlashCommand`.

Host behaviour (the SillyTavern globals: `fetch`, `writeExtensionField`,
`uuidv4`, `SlashCommandParser`) is passed in as explicit parameters or
outcome values; JavaScript maps and objects are modelled as association
lists with string keys; JavaScript runtime values are modelled by the
`JVal` type together with JavaScript truthiness.
-/

set_option autoImplicit false

namespace STUtils

/-! ### Association-list helpers (model of JS `Map` and plain objects) -/

/-- Lookup of a key in an association list: the value of the first binding
of the key, mirroring `Map.get` / object property access. -/
def alGet {β : Type} : List (String × β) → String → Option β
  | [], _ => none
  | (k', v) :: rest, k => if k' = k then some v else alGet rest k

/-- Setting a key in an association list: replaces the first binding of the
key, or appends a new binding, mirroring `Map.set` / object property
assignment (insertion order preserved). -/
def alSet {β : Type} : List (String × β) → String → β → List (String × β)
  | [], k, v => [(k, v)]
  | (k', v') :: rest, k, v =>
    if k' = k then (k', v) :: rest else (k', v') :: alSet rest k v

/-- Deleting a key from an association list, mirroring `Map.delete`. -/
def alDel {β : Type} : List (String × β) → String → List (String × β)
  | [], _ => []
  | (k', v') :: rest, k =>
    if k' = k then alDel rest k else (k', v') :: alDel rest k

/-- Right-biased merge of two association lists, mirroring the JS object
spread `{...base, ...extra}`: every binding of `extra` is set over `base`. -/
def alMerge {β : Type} (base extra : List (String × β)) : List (String × β) :=
  extra.foldl (fun acc p => alSet acc p.1 p.2) base

theorem alGet_alSet_self {β : Type} (m : List (String × β)) (k : String) (v : β) :
    alGet (alSet m k v) k = some v := by
  induction m with
  | nil => simp [alGet, alSet]
  | cons p rest ih =>
    obtain ⟨k', v'⟩ := p
    by_cases h : k' = k <;> simp [alGet, alSet, h, ih]

theorem alGet_alSet_ne {β : Type} (m : List (String × β)) (k k' : String) (v : β)
    (h : k' ≠ k) : alGet (alSet m k v) k' = alGet m k' := by
  induction m with
  | nil =>
    have h' : k ≠ k' := Ne.symm h
    simp [alGet, alSet, h']
  | cons p rest ih =>
    obtain ⟨k₀, v₀⟩ := p
    by_cases h₀ : k₀ = k
    · subst h₀
      have h' : k₀ ≠ k' := Ne.symm h
      simp [alGet, alSet, h']
    · simp [alGet, alSet, h₀, ih]

theorem alGet_alDel_self {β : Type} (m : List (String × β)) (k : String) :
    alGet (alDel m k) k = none := by
  induction m with
  | nil => simp [alGet, alDel]
  | cons p rest ih =>
    obtain ⟨k', v'⟩ := p
    by_cases h : k' = k
    · simp [alDel, h, ih]
    · simp [alGet, alDel, h, ih]

theorem alGet_alDel_ne {β : Type} (m : List (String × β)) (k k' : String)
    (h : k' ≠ k) : alGet (alDel m k) k' = alGet m k' := by
  induction m with
  | nil => simp [alGet, alDel]
  | cons p rest ih =>
    obtain ⟨k₀, v₀⟩ := p
    by_cases h₀ : k₀ = k
    · subst h₀
      have h' : k₀ ≠ k' := Ne.symm h
      simp [alGet, alDel, h', ih]
    · simp [alGet, alDel, h₀, ih]

theorem alGet_none_of_key_not_mem {β : Type} (m : List (String × β)) (k : String)
    (h : k ∉ m.map Prod.fst) : alGet m k = none := by
  induction m with
  | nil => rfl
  | cons p rest ih =>
    obtain ⟨k₀, v₀⟩ := p
    simp only [List.map_cons, List.mem_cons] at h
    push_neg at h
    have h' : k₀ ≠ k := Ne.symm h.1
    simp [alGet, h', ih h.2]

theorem alGet_alMerge_of_not_mem {β : Type} (base extra : List (String × β))
    (k : String) (h : k ∉ extra.map Prod.fst) :
    alGet (alMerge base extra) k = alGet base k := by
  induction extra generalizing base with
  | nil => rfl
  | cons p rest ih =>
    simp only [List.map_cons, List.mem_cons] at h
    push_neg at h
    show alGet (alMerge (alSet base p.1 p.2) rest) k = alGet base k
    rw [ih _ h.2, alGet_alSet_ne base p.1 k p.2 h.1]

/-! ### The ValueTracker in-memory TTL cache (`valuetracker/index.ts`) -/

/-- A cache entry as stored by `ValueTrackerAPI.setCache`:
`{ data, timestamp, ttl }`.  The cached payload is opaque to the cache
logic and is modelled as a string. -/
structure CacheEntry where
  data : String
  timestamp : Int
  ttl : Int
deriving DecidableEq

/-- The `ValueTrackerAPI` cache: a flat map from request-signature keys to
timestamped entries. -/
abbrev CacheMap := List (String × CacheEntry)

/-- The default TTL used by `setCache` when none is given:
`5 * 60 * 1000` milliseconds (five minutes). -/
def defaultCacheTtl : Int := 5 * 60 * 1000

/-- Embeds `ValueTrackerAPI.getFromCache`.  Returns the cached data when an
entry exists and `Date.now() - timestamp < ttl`; otherwise returns
`undefined`, deleting the entry when it exists but is expired.  The result
is the returned value paired with the cache after the call. -/
def getFromCache (cache : CacheMap) (now : Int) (key : String) :
    Option String × CacheMap :=
  match alGet cache key with
  | some e =>
    if now - e.timestamp < e.ttl then (some e.data, cache)
    else (none, alDel cache key)
  | none => (none, cache)

/-- Embeds `ValueTrackerAPI.setCache` with an explicit `ttl`. -/
def setCache (cache : CacheMap) (key : String) (data : String) (now : Int)
    (ttl : Int) : CacheMap :=
  alSet cache key { data := data, timestamp := now, ttl := ttl }

/-- Embeds `ValueTrackerAPI.setCache` called without an explicit `ttl`
(the default parameter `5 * 60 * 1000` applies). -/
def setCacheDefault (cache : CacheMap) (key : String) (data : String)
    (now : Int) : CacheMap :=
  setCache cache key data now defaultCacheTtl

/-- Embeds `ValueTrackerAPI.removeCacheEntries(...keys)`. -/
def removeCacheEntries (cache : CacheMap) (keys : List String) : CacheMap :=
  keys.foldl alDel cache

theorem alGet_removeCacheEntries (keys : List String) (cache : CacheMap)
    (k : String) :
    alGet (removeCacheEntries cache keys) k =
      if k ∈ keys then none else alGet cache k := by
  induction keys generalizing cache with
  | nil => simp [removeCacheEntries]
  | cons k₀ rest ih =>
    show alGet (removeCacheEntries (alDel cache k₀) rest) k = _
    rw [ih]
    by_cases hmem : k ∈ rest
    · simp [hmem]
    · by_cases hk : k = k₀
      · subst hk
        simp [hmem, alGet_alDel_self]
      · simp [hmem, hk, alGet_alDel_ne _ _ _ hk]

/-! ### Cache keys and the per-operation invalidation lists -/

/-- Cache key written by `getInstanceDataKey(id, key)`:
`instance-data-key:${id}:${key}`. -/
def instanceDataKeyCacheKey (id key : String) : String :=
  "instance-data-key:" ++ id ++ ":" ++ key

/-- Cache key written by `getAllInstancesForCharacter(characterId)`:
`instances:${characterId}`. -/
def instancesCacheKey (characterId : String) : String :=
  "instances:" ++ characterId

/-- The mutating operations of `ValueTrackerAPI`, carrying exactly the
request parameters that feed into their cache-invalidation calls. -/
inductive MutatingOp where
  | createOrUpdateCharacter (characterId : String)
  | deleteCharacter (id : String)
  | createOrUpdateInstance (id characterId : String)
  | deleteInstance (id : String)
  | deleteAllInstancesForCharacter (characterId : String)
  | createOrUpdateInstanceData (id key : String)
  | deleteInstanceDataKey (id key : String)
  | clearInstanceData (id : String)
  | overrideInstanceData (id : String)
  | mergeInstanceData (id : String)
  | removeInstanceDataKeys (id : String) (keys : List String)
deriving DecidableEq

/-- The argument list of the `removeCacheEntries` call performed by each
mutating operation, transcribed from `valuetracker/index.ts`. -/
def invalidationKeys : MutatingOp → List String
  | .createOrUpdateCharacter cid =>
      ["all-characters", "character:" ++ cid]
  | .deleteCharacter id =>
      ["all-characters", "character:" ++ id, "instances:" ++ id]
  | .createOrUpdateInstance id cid =>
      ["instance:" ++ id, "instances:" ++ cid, "character:" ++ cid]
  | .deleteInstance id =>
      ["instance:" ++ id, "instance-data:" ++ id]
  | .deleteAllInstancesForCharacter cid =>
      ["instances:" ++ cid]
  | .createOrUpdateInstanceData id _ =>
      ["instance-data:" ++ id]
  | .deleteInstanceDataKey id _ =>
      ["instance-data:" ++ id]
  | .clearInstanceData id =>
      ["instance-data:" ++ id]
  | .overrideInstanceData id =>
      ["instance-data:" ++ id]
  | .mergeInstanceData id =>
      ["instance-data:" ++ id]
  | .removeInstanceDataKeys id _ =>
      ["instance-data:" ++ id]

/-- The cache of a `ValueTrackerAPI` instance immediately after one of its
mutating operations completes: the operation's `removeCacheEntries` call
applied to the cache it held before. -/
def cacheAfterMutation (op : MutatingOp) (cache : CacheMap) : CacheMap :=
  removeCacheEntries cache (invalidationKeys op)

/-- C1: counterexample.  A per-key cache entry written by
`getInstanceDataKey("i1", "k1")` survives `createOrUpdateInstanceData("i1",
"k1", ...)` — the mutation only deletes `instance-data:i1` — so a
subsequent `getInstanceDataKey("i1", "k1")` read still returns the
pre-mutation data from the cache. -/
theorem vt_cache_per_key_entry_survives_mutation :
    (getFromCache
        (cacheAfterMutation (.createOrUpdateInstanceData "i1" "k1")
          [(instanceDataKeyCacheKey "i1" "k1",
            { data := "stale", timestamp := 0, ttl := defaultCacheTtl })])
        1 (instanceDataKeyCacheKey "i1" "k1")).1 = some "stale" := by
  decide

/-- C1 (amended): immediately after each mutating `ValueTrackerAPI`
operation, exactly the cache keys in that operation's fixed invalidation
list (as transcribed in `invalidationKeys`) are deleted from the internal
cache, and every cache entry under any other key — in particular the
per-key entries written by `getInstanceDataKey` under keys not in the
list — is left untouched. -/
theorem vt_cache_invalidation_amended (op : MutatingOp) (cache : CacheMap)
    (k : String) :
    alGet (cacheAfterMutation op cache) k =
      if k ∈ invalidationKeys op then none else alGet cache k :=
  alGet_removeCacheEntries (invalidationKeys op) cache k

/-- C3: `getFromCache` returns the stored data exactly when an entry for
the key exists and `now - timestamp < ttl`; in every other case it returns
`undefined`; when an entry exists but is expired it is removed from the
cache; and `setCache` without an explicit `ttl` stores a ttl of five
minutes (`5 * 60 * 1000` ms). -/
theorem vt_getFromCache_spec (cache : CacheMap) (now : Int) (key : String)
    (d : String) :
    ((getFromCache cache now key).1 = some d ↔
      ∃ e, alGet cache key = some e ∧ now - e.timestamp < e.ttl ∧ e.data = d)
  ∧ (∀ e, alGet cache key = some e → ¬ now - e.timestamp < e.ttl →
      (getFromCache cache now key).1 = none ∧
        alGet (getFromCache cache now key).2 key = none)
  ∧ alGet (setCacheDefault cache key d now) key =
      some { data := d, timestamp := now, ttl := 5 * 60 * 1000 } := by
  refine ⟨?_, ?_, ?_⟩
  · constructor
    · intro h
      cases he : alGet cache key with
      | none => simp [getFromCache, he] at h
      | some e =>
        by_cases hf : now - e.timestamp < e.ttl
        · refine ⟨e, rfl, hf, ?_⟩
          simp only [getFromCache, he, if_pos hf] at h
          exact Option.some_injective _ h
        · simp [getFromCache, he, hf] at h
    · rintro ⟨e, he, hf, hd⟩
      simp [getFromCache, he, hf, hd]
  · intro e he hf
    constructor
    · simp [getFromCache, he, hf]
    · simp [getFromCache, he, hf, alGet_alDel_self]
  · exact alGet_alSet_self cache key _

/-- C3: witness.  A fresh entry is returned, an expired entry yields
`undefined` and is evicted, and the default ttl is five minutes. -/
theorem vt_getFromCache_spec_witness :
    (getFromCache [("k", { data := "v", timestamp := 0, ttl := 10 })] 5 "k").1
        = some "v"
  ∧ (getFromCache [("k", { data := "v", timestamp := 0, ttl := 10 })] 20 "k").1
        = none
  ∧ alGet
      (getFromCache [("k", { data := "v", timestamp := 0, ttl := 10 })] 20 "k").2
      "k" = none
  ∧ alGet (setCacheDefault [] "k" "v" 7) "k" =
      some { data := "v", timestamp := 7, ttl := 5 * 60 * 1000 } := by
  refine ⟨?_, ?_, ?_, ?_⟩
  · exact (vt_getFromCache_spec _ 5 "k" "v").1.mpr
      ⟨{ data := "v", timestamp := 0, ttl := 10 }, by decide, by decide, rfl⟩
  · exact ((vt_getFromCache_spec _ 20 "k" "v").2.1
      { data := "v", timestamp := 0, ttl := 10 } (by decide) (by decide)).1
  · exact ((vt_getFromCache_spec _ 20 "k" "v").2.1
      { data := "v", timestamp := 0, ttl := 10 } (by decide) (by decide)).2
  · exact (vt_getFromCache_spec [] 7 "k" "v").2.2

/-! ### JavaScript runtime values and the host character list -/

/-- A JavaScript runtime value as far as the wrapper code inspects one:
`undefined`, `null`, a string, a number, or a boolean. -/
inductive JVal where
  | undef
  | nullv
  | str (s : String)
  | num (n : Int)
  | boolean (b : Bool)
deriving DecidableEq

/-- JavaScript truthiness of a `JVal`. -/
def JVal.truthy : JVal → Bool
  | .undef => false
  | .nullv => false
  | .str s => s ≠ ""
  | .num n => n ≠ 0
  | .boolean b => b

/-- Nullish test (`x ?? y` picks `y` exactly when `x` is nullish). -/
def JVal.isNullish : JVal → Bool
  | .undef => true
  | .nullv => true
  | _ => false

/-- A character's extension-field bag: the `data.extensions` object. -/
abbrev ExtensionBag := List (String × JVal)

/-- The portion of a host character record the wrapper code reads:
`data` may be absent at runtime, and so may `data.extensions`. -/
structure CharData where
  extensions : Option ExtensionBag
deriving DecidableEq

/-- A host character record (fields other than `data` are irrelevant to
the embedded operations). -/
structure Character where
  data : Option CharData
deriving DecidableEq

/-- The optional-chained read `character.data?.extensions?.[key]`. -/
def bagRead (c : Character) (key : String) : Option JVal :=
  c.data.bind fun d => d.extensions.bind fun bag => alGet bag key

/-- The guard `character.data?.extensions?.['guid'] === guid` used to find
a character by GUID (strict equality against a string). -/
def guidMatches (c : Character) (guid : String) : Bool :=
  bagRead c "guid" = some (.str guid)

/-! ### `CharacterUtil.getOrGenerateCharacterGuid` (`character.ts`)

The host context is passed explicitly: `characters` is the in-memory
character list, `pos` is the position of the argument object in that list
(`none` models `characters.indexOf(character) === -1`), and `uuid` is the
value the host's `uuidv4()` would produce.  `writeExtensionField` persists
to host storage without touching the in-memory list (which is why the
source updates the in-memory object itself afterwards); the calls it
receives are recorded in `writes`. -/

/-- The outcome of one `getOrGenerateCharacterGuid` call: the returned
value or thrown error, the in-memory character list after the call, the
`writeExtensionField` calls issued, and the number of `uuidv4` calls. -/
structure GuidCallResult where
  result : Except String JVal
  characters : List Character
  writes : List (Nat × String × JVal)
  uuidCalls : Nat

/-- The in-memory cache update performed after GUID generation when
`character.data` is present: the bag (created as `{}` if absent) gains
the binding `guid ↦ uuid`. -/
def cacheGuidOnCharacter (c : Character) (d : CharData) (uuid : String) : Character :=
  { c with data := some { extensions := some (alSet (d.extensions.getD []) "guid" (JVal.str uuid)) } }

/-- Embeds `CharacterUtil.getOrGenerateCharacterGuid`. -/
def getOrGenerateCharacterGuid (characters : List Character)
    (pos : Option Nat) (c : Character) (uuid : String) : GuidCallResult :=
  let guid? := bagRead c "guid"
  if (guid?.getD .undef).truthy then
    { result := .ok (guid?.getD .undef), characters := characters,
      writes := [], uuidCalls := 0 }
  else
    match pos with
    | none =>
      { result := .error
          "Character not found in the character list. Cannot generate GUID.",
        characters := characters, writes := [], uuidCalls := 0 }
    | some i =>
      let g : JVal := .str uuid
      let characters' :=
        match c.data with
        | some d => characters.set i (cacheGuidOnCharacter c d uuid)
        | none => characters
      { result := .ok g, characters := characters',
        writes := [(i, "guid", g)], uuidCalls := 1 }

/-- C4: the code evaluated at the failing input.  For a character in the
host list whose `data` field is absent, `getOrGenerateCharacterGuid` is
not idempotent: the second call returns a different, freshly generated
GUID and issues a second `writeExtensionField` call and a second `uuidv4`
generation, because the in-memory cache update is skipped by the
`if (character.data)` guard. -/
theorem guid_not_idempotent_when_data_absent :
    (getOrGenerateCharacterGuid [{ data := none }] (some 0) { data := none }
        "g1").result = .ok (.str "g1")
  ∧ (getOrGenerateCharacterGuid [{ data := none }] (some 0) { data := none }
        "g1").characters = [{ data := none }]
  ∧ (getOrGenerateCharacterGuid
        (getOrGenerateCharacterGuid [{ data := none }] (some 0)
          { data := none } "g1").characters
        (some 0) { data := none } "g2").result = .ok (.str "g2")
  ∧ (getOrGenerateCharacterGuid
        (getOrGenerateCharacterGuid [{ data := none }] (some 0)
          { data := none } "g1").characters
        (some 0) { data := none } "g2").writes = [(0, "guid", .str "g2")]
  ∧ (getOrGenerateCharacterGuid
        (getOrGenerateCharacterGuid [{ data := none }] (some 0)
          { data := none } "g1").characters
        (some 0) { data := none } "g2").uuidCalls = 1
  ∧ JVal.str "g1" ≠ JVal.str "g2" := by
  refine ⟨rfl, rfl, rfl, rfl, rfl, by decide⟩

/-- C5: counterexample.  For a character in the host list whose `data`
field is absent and whose bag has no GUID, the call does generate and
write a fresh GUID but does not cache it on the in-memory character
object: the in-memory list is left unchanged, so the claim's caching step
does not happen. -/
theorem guid_generation_skips_inmemory_cache :
    (getOrGenerateCharacterGuid [{ data := none }] (some 0) { data := none }
        "g1").result = .ok (.str "g1")
  ∧ (getOrGenerateCharacterGuid [{ data := none }] (some 0) { data := none }
        "g1").writes = [(0, "guid", .str "g1")]
  ∧ (getOrGenerateCharacterGuid [{ data := none }] (some 0) { data := none }
        "g1").characters = [{ data := none }]
  ∧ bagRead { data := none } "guid" = none := by
  refine ⟨rfl, rfl, rfl, rfl⟩

/-- C5 (amended): when the bag already holds a truthy `guid` value the
call returns it and performs no write, no generation, and no list change;
when the bag holds no truthy `guid` and the character is in the list the
call generates a fresh GUID, writes it via `writeExtensionField` at the
character's index, returns it, and caches it on the in-memory character
object provided the character's `data` object is present (the cache step
is skipped when `data` is absent); when the bag holds no truthy `guid`
and the character is not in the list the call throws. -/
theorem getOrGenerateCharacterGuid_spec (characters : List Character)
    (c : Character) (uuid : String) :
    (∀ v, bagRead c "guid" = some v → v.truthy = true → ∀ pos,
        (getOrGenerateCharacterGuid characters pos c uuid).result = .ok v
      ∧ (getOrGenerateCharacterGuid characters pos c uuid).writes = []
      ∧ (getOrGenerateCharacterGuid characters pos c uuid).uuidCalls = 0
      ∧ (getOrGenerateCharacterGuid characters pos c uuid).characters
          = characters)
  ∧ (((bagRead c "guid").getD JVal.undef).truthy = false → ∀ i,
        characters.get? i = some c →
        (getOrGenerateCharacterGuid characters (some i) c uuid).result
            = .ok (.str uuid)
      ∧ (getOrGenerateCharacterGuid characters (some i) c uuid).writes
            = [(i, "guid", .str uuid)]
      ∧ (getOrGenerateCharacterGuid characters (some i) c uuid).uuidCalls = 1
      ∧ (∀ d, c.data = some d → ∃ c',
            (getOrGenerateCharacterGuid characters (some i) c uuid).characters.get? i
                = some c'
          ∧ bagRead c' "guid" = some (.str uuid))
      ∧ (c.data = none →
          (getOrGenerateCharacterGuid characters (some i) c uuid).characters
            = characters))
  ∧ (((bagRead c "guid").getD JVal.undef).truthy = false →
        (getOrGenerateCharacterGuid characters none c uuid).result
          = .error
            "Character not found in the character list. Cannot generate GUID.") := by
  refine ⟨?_, ?_, ?_⟩
  · intro v hv htr pos
    refine ⟨?_, ?_, ?_, ?_⟩ <;>
      simp [getOrGenerateCharacterGuid, hv, htr]
  · intro hg i hi
    refine ⟨?_, ?_, ?_, ?_, ?_⟩
    · simp [getOrGenerateCharacterGuid, hg]
    · simp [getOrGenerateCharacterGuid, hg]
    · simp [getOrGenerateCharacterGuid, hg]
    · intro d hd
      have hlen : i < characters.length := (List.get?_eq_some.mp hi).1
      refine ⟨cacheGuidOnCharacter c d uuid, ?_, ?_⟩
      · simp [getOrGenerateCharacterGuid, hg, hd, List.get?_eq_getElem?,
          List.getElem?_set_eq_of_lt, hlen]
      · simp [cacheGuidOnCharacter, bagRead, alGet_alSet_self]
    · intro hd
      simp [getOrGenerateCharacterGuid, hg, hd]
  · intro hg
    simp [getOrGenerateCharacterGuid, hg]

/-- A concrete character whose `data.extensions` bag exists but holds no
GUID. -/
def emptyBagCharacter : Character :=
  { data := some { extensions := some [] } }

/-- A concrete character whose bag already binds `guid` to `"g1"`. -/
def guidedCharacter : Character :=
  { data := some { extensions := some [("guid", JVal.str "g1")] } }

/-- C5: witness.  A character whose bag already holds `guid = "g1"` gets
it back untouched; a character with an empty bag in the list gets the
fresh GUID generated, written at its index and returned; a character not
in the list makes the call throw. -/
theorem getOrGenerateCharacterGuid_spec_witness :
    (getOrGenerateCharacterGuid [guidedCharacter] (some 0) guidedCharacter
        "u1").result = .ok (.str "g1")
  ∧ (getOrGenerateCharacterGuid [emptyBagCharacter] (some 0) emptyBagCharacter
        "u2").result = .ok (.str "u2")
  ∧ (getOrGenerateCharacterGuid [emptyBagCharacter] (some 0) emptyBagCharacter
        "u2").writes = [(0, "guid", .str "u2")]
  ∧ (getOrGenerateCharacterGuid [] none emptyBagCharacter "u3").result
      = .error
        "Character not found in the character list. Cannot generate GUID." := by
  refine ⟨?_, ?_, ?_, ?_⟩
  · exact ((getOrGenerateCharacterGuid_spec [guidedCharacter]
      guidedCharacter "u1").1 (.str "g1") (by decide) (by decide) (some 0)).1
  · exact ((getOrGenerateCharacterGuid_spec [emptyBagCharacter]
      emptyBagCharacter "u2").2.1 (by decide) 0 (by decide)).1
  · exact ((getOrGenerateCharacterGuid_spec [emptyBagCharacter]
      emptyBagCharacter "u2").2.1 (by decide) 0 (by decide)).2.1
  · exact (getOrGenerateCharacterGuid_spec [] emptyBagCharacter "u3").2.2
      (by decide)

/-! ### Errors, requests and `ValueTrackerAPI.apiRequest` -/

/-- The `{url, method, endpoint}` details blob carried by a
`ValueTrackerError`. -/
structure ReqDetails where
  url : String
  method : String
  endpoint : String
deriving DecidableEq

/-- A thrown JavaScript error as the wrapper code distinguishes them:
either an instance of the custom `ValueTrackerError` class (carrying an
optional HTTP status code and an optional details blob) or any other
error. -/
inductive JSError where
  | vt (message : String) (statusCode : Option Nat) (details : Option ReqDetails)
  | plain (message : String)
deriving DecidableEq

/-- The `error instanceof ValueTrackerError` test. -/
def JSError.isValueTrackerError : JSError → Bool
  | .vt _ _ _ => true
  | .plain _ => false

/-- The status code carried by an error (`undefined` for plain errors). -/
def JSError.statusCode : JSError → Option Nat
  | .vt _ sc _ => sc
  | .plain _ => none

/-- The details blob carried by an error. -/
def JSError.details : JSError → Option ReqDetails
  | .vt _ _ d => d
  | .plain _ => none

/-- HTTP headers as a JS object. -/
abbrev Headers := List (String × String)

/-- The per-call options handed to `apiRequest` (`RequestInit`): the parts
the code reads are `method` and `headers`. -/
structure RequestOptions where
  method : Option String
  headers : Headers
deriving DecidableEq

/-- The empty `RequestInit` (`{}`), the default for `apiRequest`. -/
def noOptions : RequestOptions := { method := none, headers := [] }

/-- The base URL fixed by the `ValueTrackerAPI` constructor. -/
def vtBaseUrl : String := "/api/plugins/valuetracker"

/-- JS truthiness of `this.extensionId` (an optional string). -/
def strTruthy : Option String → Bool
  | some s => s ≠ ""
  | none => false

/-- The headers attached to an `apiRequest` fetch: the host default
headers, overridden by the per-call option headers, then — exactly when
`includeExtensionId && this.extensionId` — the `x-extension-id` header. -/
def buildHeaders (extensionId : Option String) (defaultHeaders : Headers)
    (opts : RequestOptions) (includeExtensionId : Bool) : Headers :=
  let merged := alMerge defaultHeaders opts.headers
  if includeExtensionId && strTruthy extensionId then
    alSet merged "x-extension-id" ((extensionId).getD "")
  else merged

/-- The HTTP request a call to `apiRequest` issues to `fetch`. -/
structure HttpRequest where
  url : String
  method : String
  headers : Headers
deriving DecidableEq

/-- The request built by `apiRequest` before fetching, or `none` when the
endpoint validation throws first (no request is issued). -/
def builtRequest (extensionId : Option String) (defaultHeaders : Headers)
    (endpoint : String) (opts : RequestOptions) (includeExtensionId : Bool) :
    Option HttpRequest :=
  if endpoint = "" then none
  else some
    { url := vtBaseUrl ++ endpoint,
      method := opts.method.getD "GET",
      headers := buildHeaders extensionId defaultHeaders opts includeExtensionId }

/-- The host-side outcome of the `fetch` call inside `apiRequest`:
either the fetch promise rejects (a network error), or a response arrives
with a status, the error body text (after the `.catch` fallback), the
empty-body indicator (`status === 204 || content-length === '0'`), and
the outcome of `response.json()`. -/
inductive FetchOutcome where
  | reject (message : String)
  | respond (status : Nat) (errorText : String) (noContent : Bool)
      (jsonOutcome : Except String String)

/-- The `(error as Error).message || 'Unknown network error'` fallback. -/
def networkErrorMessage (msg : String) : String :=
  "Network error: " ++ (if msg = "" then "Unknown network error" else msg)

/-- Embeds `ValueTrackerAPI.apiRequest`.  The result is the parsed JSON
payload (`none` for an empty 204/zero-length body) or the thrown error. -/
def apiRequest (endpoint : String) (opts : RequestOptions)
    (outcome : FetchOutcome) : Except JSError (Option String) :=
  let url := vtBaseUrl ++ endpoint
  if endpoint = "" then
    .error (.vt "Invalid endpoint parameter" none none)
  else
    let method := opts.method.getD "GET"
    let details : ReqDetails := { url := url, method := method, endpoint := endpoint }
    match outcome with
    | .reject msg =>
      .error (.vt (networkErrorMessage msg) none (some details))
    | .respond status errorText noContent jsonOutcome =>
      if status < 200 ∨ 299 < status then
        .error (.vt
          ("API request failed: " ++ toString status ++ " - " ++ errorText)
          (some status) (some details))
      else if status = 204 ∨ noContent then
        .ok none
      else
        match jsonOutcome with
        | .ok v => .ok (some v)
        | .error m => .error (.vt (networkErrorMessage m) none (some details))

/-- C6: every error thrown by `apiRequest` is a `ValueTrackerError`; on a
non-ok HTTP status the thrown error carries that status and the
`{url, method, endpoint}` details blob; on a network error (fetch
rejects) it carries an `undefined` status code and the same details
blob. -/
theorem apiRequest_error_spec (endpoint : String) (opts : RequestOptions) :
    (∀ outcome e, apiRequest endpoint opts outcome = .error e →
        e.isValueTrackerError = true)
  ∧ (endpoint ≠ "" → ∀ status errorText noContent jsonOutcome,
      status < 200 ∨ 299 < status →
        apiRequest endpoint opts (.respond status errorText noContent jsonOutcome)
          = .error (.vt
              ("API request failed: " ++ toString status ++ " - " ++ errorText)
              (some status)
              (some { url := vtBaseUrl ++ endpoint,
                      method := opts.method.getD "GET", endpoint := endpoint })))
  ∧ (endpoint ≠ "" → ∀ msg,
      apiRequest endpoint opts (.reject msg)
        = .error (.vt (networkErrorMessage msg) none
            (some { url := vtBaseUrl ++ endpoint,
                    method := opts.method.getD "GET", endpoint := endpoint }))) := by
  refine ⟨?_, ?_, ?_⟩
  · intro outcome e he
    by_cases hend : endpoint = ""
    · simp [apiRequest, hend] at he
      rw [← he]
      rfl
    · cases outcome with
      | reject msg =>
        simp [apiRequest, hend] at he
        rw [← he]
        rfl
      | respond status errorText noContent jsonOutcome =>
        by_cases hst : status < 200 ∨ 299 < status
        · simp [apiRequest, hend, hst] at he
          rw [← he]
          rfl
        · by_cases hnc : status = 204 ∨ noContent = true
          · simp [apiRequest, hend, hst, hnc] at he
          · cases hj : jsonOutcome with
            | ok v => simp [apiRequest, hend, hst, hnc, hj] at he
            | error m =>
              simp [apiRequest, hend, hst, hnc, hj] at he
              rw [← he]
              rfl
  · intro hend status errorText noContent jsonOutcome hst
    simp [apiRequest, hend, hst]
  · intro hend msg
    simp [apiRequest, hend]

/-- C6: witness.  A 500 response and a rejected fetch each produce a
`ValueTrackerError` with the claimed status code and details blob. -/
theorem apiRequest_error_spec_witness :
    apiRequest "/characters" noOptions (.respond 500 "boom" false (.ok "x"))
      = .error (.vt "API request failed: 500 - boom" (some 500)
          (some { url := "/api/plugins/valuetracker/characters",
                  method := "GET", endpoint := "/characters" }))
  ∧ apiRequest "/characters" noOptions (.reject "down")
      = .error (.vt "Network error: down" none
          (some { url := "/api/plugins/valuetracker/characters",
                  method := "GET", endpoint := "/characters" })) := by
  constructor
  · exact (apiRequest_error_spec "/characters" noOptions).2.1 (by decide)
      500 "boom" false (.ok "x") (by decide)
  · exact (apiRequest_error_spec "/characters" noOptions).2.2 (by decide) "down"

/-! ### The public `ValueTrackerAPI` operations and the requests they issue -/

/-- The public operations of `ValueTrackerAPI` that reach `apiRequest`,
carrying the parameters interpolated into their endpoints. -/
inductive VTOp where
  | registerExtension (extensionId : String)
  | deregisterExtension (extensionId : String)
  | getAllCharacters
  | getCharacter (id : String)
  | createOrUpdateCharacter
  | deleteCharacter (id : String)
  | getAllInstancesForCharacter (characterId : String)
  | getInstance (id : String)
  | createOrUpdateInstance
  | deleteInstance (id : String)
  | deleteAllInstancesForCharacter (characterId : String)
  | getInstanceData (id : String)
  | getInstanceDataKey (id key : String)
  | createOrUpdateInstanceData (id : String)
  | createOrUpdateInstanceDataAlt (id : String)
  | deleteInstanceDataKey (id key : String)
  | clearInstanceData (id : String)
  | overrideInstanceData (id : String)
  | mergeInstanceData (id : String)
  | removeInstanceDataKeys (id : String)
  | getCrossExtensionCharacter (extensionId id : String)
  | getCrossExtensionInstance (extensionId id : String)
  | getCrossExtensionInstanceData (extensionId id : String)
  | getCrossExtensionInstanceDataKey (extensionId id key : String)
  | getAllCrossExtensionCharacters (extensionId : String)
  | getCrossExtensionInstancesByCharacter (extensionId characterId : String)
deriving DecidableEq

/-- The endpoint string each operation passes to `apiRequest`. -/
def opEndpoint : VTOp → String
  | .registerExtension _ => "/register"
  | .deregisterExtension _ => "/register"
  | .getAllCharacters => "/characters"
  | .getCharacter id => "/characters/" ++ id
  | .createOrUpdateCharacter => "/characters"
  | .deleteCharacter id => "/characters/" ++ id
  | .getAllInstancesForCharacter cid => "/characters/" ++ cid ++ "/instances"
  | .getInstance id => "/instances/" ++ id
  | .createOrUpdateInstance => "/instances"
  | .deleteInstance id => "/instances/" ++ id
  | .deleteAllInstancesForCharacter cid => "/characters/" ++ cid ++ "/instances"
  | .getInstanceData id => "/instances/" ++ id ++ "/data"
  | .getInstanceDataKey id key => "/instances/" ++ id ++ "/data/" ++ key
  | .createOrUpdateInstanceData id => "/instances/" ++ id ++ "/data"
  | .createOrUpdateInstanceDataAlt id => "/instances/" ++ id ++ "/data"
  | .deleteInstanceDataKey id key => "/instances/" ++ id ++ "/data/" ++ key
  | .clearInstanceData id => "/instances/" ++ id ++ "/data"
  | .overrideInstanceData id => "/instances/" ++ id ++ "/data/override"
  | .mergeInstanceData id => "/instances/" ++ id ++ "/data/merge"
  | .removeInstanceDataKeys id => "/instances/" ++ id ++ "/data/remove"
  | .getCrossExtensionCharacter eid id =>
      "/cross-extension/characters/" ++ eid ++ "/" ++ id
  | .getCrossExtensionInstance eid id =>
      "/cross-extension/instances/" ++ eid ++ "/" ++ id
  | .getCrossExtensionInstanceData eid id =>
      "/cross-extension/instances/" ++ eid ++ "/" ++ id ++ "/data"
  | .getCrossExtensionInstanceDataKey eid id key =>
      "/cross-extension/instances/" ++ eid ++ "/" ++ id ++ "/data/" ++ key
  | .getAllCrossExtensionCharacters eid =>
      "/cross-extension/characters/" ++ eid
  | .getCrossExtensionInstancesByCharacter eid cid =>
      "/cross-extension/characters/" ++ eid ++ "/" ++ cid ++ "/instances"

/-- The `RequestInit` options each operation passes to `apiRequest`.
Registration and deregistration pass the host default headers plus
`Content-Type: application/json`; bodies are irrelevant to the claims. -/
def opOptions (op : VTOp) (defaultHeaders : Headers) : RequestOptions :=
  match op with
  | .registerExtension _ =>
      { method := some "POST",
        headers := alSet defaultHeaders "Content-Type" "application/json" }
  | .deregisterExtension _ =>
      { method := some "DELETE",
        headers := alSet defaultHeaders "Content-Type" "application/json" }
  | .getAllCharacters => noOptions
  | .getCharacter _ => noOptions
  | .createOrUpdateCharacter => { method := some "POST", headers := [] }
  | .deleteCharacter _ => { method := some "DELETE", headers := [] }
  | .getAllInstancesForCharacter _ => noOptions
  | .getInstance _ => noOptions
  | .createOrUpdateInstance => { method := some "POST", headers := [] }
  | .deleteInstance _ => { method := some "DELETE", headers := [] }
  | .deleteAllInstancesForCharacter _ => { method := some "DELETE", headers := [] }
  | .getInstanceData _ => noOptions
  | .getInstanceDataKey _ _ => noOptions
  | .createOrUpdateInstanceData _ => { method := some "POST", headers := [] }
  | .createOrUpdateInstanceDataAlt _ => { method := some "PUT", headers := [] }
  | .deleteInstanceDataKey _ _ => { method := some "DELETE", headers := [] }
  | .clearInstanceData _ => { method := some "DELETE", headers := [] }
  | .overrideInstanceData _ => { method := some "PUT", headers := [] }
  | .mergeInstanceData _ => { method := some "PUT", headers := [] }
  | .removeInstanceDataKeys _ => { method := some "PUT", headers := [] }
  | .getCrossExtensionCharacter _ _ => noOptions
  | .getCrossExtensionInstance _ _ => noOptions
  | .getCrossExtensionInstanceData _ _ => noOptions
  | .getCrossExtensionInstanceDataKey _ _ _ => noOptions
  | .getAllCrossExtensionCharacters _ => noOptions
  | .getCrossExtensionInstancesByCharacter _ _ => noOptions

/-- The `includeExtensionId` argument each operation passes to
`apiRequest` (`true` is the default parameter value). -/
def opIncludesExtensionId : VTOp → Bool
  | .registerExtension _ => false
  | .deregisterExtension _ => false
  | .getCrossExtensionCharacter _ _ => false
  | .getCrossExtensionInstance _ _ => false
  | .getCrossExtensionInstanceData _ _ => false
  | .getCrossExtensionInstanceDataKey _ _ _ => false
  | .getAllCrossExtensionCharacters _ => false
  | .getCrossExtensionInstancesByCharacter _ _ => false
  | _ => true

/-- Whether an operation is a registration, deregistration, or
cross-extension read — the operations the claim says never carry the
`x-extension-id` header. -/
def opIsRegistrationOrCrossExtension : VTOp → Bool
  | .registerExtension _ => true
  | .deregisterExtension _ => true
  | .getCrossExtensionCharacter _ _ => true
  | .getCrossExtensionInstance _ _ => true
  | .getCrossExtensionInstanceData _ _ => true
  | .getCrossExtensionInstanceDataKey _ _ _ => true
  | .getAllCrossExtensionCharacters _ => true
  | .getCrossExtensionInstancesByCharacter _ _ => true
  | _ => false

/-- The HTTP request an operation issues on a `ValueTrackerAPI` instance
whose extension ID is `extensionId`, given the host default headers. -/
def opRequest (extensionId : Option String) (defaultHeaders : Headers)
    (op : VTOp) : Option HttpRequest :=
  builtRequest extensionId defaultHeaders (opEndpoint op)
    (opOptions op defaultHeaders) (opIncludesExtensionId op)

theorem string_append_ne_empty_left (s t : String) (h : s ≠ "") :
    s ++ t ≠ "" := by
  intro he
  apply h
  obtain ⟨l⟩ := s
  obtain ⟨m⟩ := t
  cases l with
  | nil => rfl
  | cons a as =>
    exact absurd (congrArg String.data he) (by simp [String.append])

theorem opEndpoint_ne_empty (op : VTOp) : opEndpoint op ≠ "" := by
  cases op <;> simp only [opEndpoint] <;>
    (repeat' apply string_append_ne_empty_left) <;> decide

theorem alGet_alMerge_none {β : Type} (base extra : List (String × β))
    (k : String) (hb : alGet base k = none) (he : alGet extra k = none) :
    alGet (alMerge base extra) k = none := by
  induction extra generalizing base with
  | nil => exact hb
  | cons p rest ih =>
    obtain ⟨k₀, v₀⟩ := p
    by_cases h₀ : k₀ = k
    · simp [alGet, h₀] at he
    · simp only [alGet, if_neg h₀] at he
      show alGet (alMerge (alSet base k₀ v₀) rest) k = none
      exact ih (alSet base k₀ v₀)
        ((alGet_alSet_ne base k₀ k v₀ (fun hh => h₀ hh.symm)).trans hb) he

theorem opOptions_headers_no_extid (op : VTOp) (defaultHeaders : Headers)
    (hno : alGet defaultHeaders "x-extension-id" = none) :
    alGet (opOptions op defaultHeaders).headers "x-extension-id" = none := by
  cases op <;> simp only [opOptions, noOptions] <;>
    first
      | rfl
      | rw [alGet_alSet_ne _ _ _ _ (by decide)]; exact hno

theorem opIncludesExtensionId_eq_false_of_reg_or_cross (op : VTOp)
    (h : opIsRegistrationOrCrossExtension op = true) :
    opIncludesExtensionId op = false := by
  cases op <;> first | rfl | simp [opIsRegistrationOrCrossExtension] at h

/-- C7: every HTTP request issued by a `ValueTrackerAPI` operation targets
a URL beginning with `/api/plugins/valuetracker`; assuming the host
default headers (and hence the option headers built from them) do not
themselves bind `x-extension-id`, that header is attached exactly when the
operation requests it and a (truthy) extension ID is set on the instance;
registration, deregistration, and the cross-extension reads never carry
it. -/
theorem vt_request_url_and_header_spec (extensionId : Option String)
    (defaultHeaders : Headers) (op : VTOp) (r : HttpRequest)
    (hno : alGet defaultHeaders "x-extension-id" = none)
    (hr : opRequest extensionId defaultHeaders op = some r) :
    (∃ rest, r.url = "/api/plugins/valuetracker" ++ rest)
  ∧ (opIncludesExtensionId op = true → strTruthy extensionId = true →
      alGet r.headers "x-extension-id" = some (extensionId.getD ""))
  ∧ (opIncludesExtensionId op = false ∨ strTruthy extensionId = false →
      alGet r.headers "x-extension-id" = none)
  ∧ (opIsRegistrationOrCrossExtension op = true →
      alGet r.headers "x-extension-id" = none) := by
  have hend := opEndpoint_ne_empty op
  simp only [opRequest, builtRequest, if_neg hend] at hr
  have hr' := (Option.some_injective _ hr).symm
  subst hr'
  have hnone : opIncludesExtensionId op = false ∨ strTruthy extensionId = false →
      alGet (buildHeaders extensionId defaultHeaders
        (opOptions op defaultHeaders) (opIncludesExtensionId op))
        "x-extension-id" = none := by
    intro h
    have hcond : (opIncludesExtensionId op && strTruthy extensionId) = false := by
      cases h with
      | inl h => simp [h]
      | inr h => simp [h]
    simp only [buildHeaders, hcond, Bool.false_eq_true, if_false]
    exact alGet_alMerge_none _ _ _ hno
      (opOptions_headers_no_extid op defaultHeaders hno)
  refine ⟨⟨opEndpoint op, rfl⟩, ?_, hnone, ?_⟩
  · intro h1 h2
    have hcond : (opIncludesExtensionId op && strTruthy extensionId) = true := by
      simp [h1, h2]
    simp only [buildHeaders, hcond, if_true]
    exact alGet_alSet_self _ _ _
  · intro h
    exact hnone (Or.inl (opIncludesExtensionId_eq_false_of_reg_or_cross op h))

/-- C7: witness.  With extension ID `ext1` and clean host headers, a
`getCharacter` request targets `/api/plugins/valuetracker/characters/c1`
and carries `x-extension-id: ext1`, while a `registerExtension` request
carries no `x-extension-id` header. -/
theorem vt_request_url_and_header_spec_witness :
    (∃ rest,
      ({ url := "/api/plugins/valuetracker/characters/c1", method := "GET",
         headers := [("x-extension-id", "ext1")] } : HttpRequest).url
        = "/api/plugins/valuetracker" ++ rest)
  ∧ alGet
      ({ url := "/api/plugins/valuetracker/characters/c1", method := "GET",
         headers := [("x-extension-id", "ext1")] } : HttpRequest).headers
      "x-extension-id" = some "ext1"
  ∧ alGet
      ({ url := "/api/plugins/valuetracker/register", method := "POST",
         headers := [("Content-Type", "application/json")] } : HttpRequest).headers
      "x-extension-id" = none := by
  have h1 := vt_request_url_and_header_spec (some "ext1") []
    (.getCharacter "c1")
    { url := "/api/plugins/valuetracker/characters/c1", method := "GET",
      headers := [("x-extension-id", "ext1")] } rfl rfl
  have h2 := vt_request_url_and_header_spec (some "ext1") []
    (.registerExtension "e")
    { url := "/api/plugins/valuetracker/register", method := "POST",
      headers := [("Content-Type", "application/json")] } rfl rfl
  exact ⟨h1.1, h1.2.1 rfl (by decide), h2.2.2.2 rfl⟩

/-! ### Slash-command wrappers (`ui/slashCommands.ts`) and
`CharacterUtil.getCharacterMetadata` (`character.ts`) -/

/-- Embeds `SlashCommandsUtil.executeSlashCommand`.  `available` is
whether the host `SlashCommandParser`/`SlashCommand` globals exist;
`hostResult` is the outcome of the host's `executeCommand` call.  The
`catch` block logs and rethrows the error unchanged. -/
def executeSlashCommand (available : Bool) (hostResult : Except JSError String) :
    Except JSError String :=
  if !available then
    .error (.plain "Slash command system not available")
  else
    hostResult

/-- Embeds `SlashCommandsUtil.registerSlashCommand`.  `hostAdd` is the
outcome of the host's `SlashCommand.fromProps` / `addCommandObject`
calls; a thrown host error is caught and turned into `false`. -/
def registerSlashCommand (available : Bool) (hostAdd : Except JSError Unit) :
    Except JSError Bool :=
  if !available then
    .ok false
  else
    match hostAdd with
    | .ok _ => .ok true
    | .error _ => .ok false

/-- Embeds `CharacterUtil.getCharacterMetadata`.  `hostCharacters` is the
outcome of `contextUtil.getCharacters()` (which throws when no host
context is available); failures are caught and turned into `null`
(modelled `none`), and a found character's extension bag is returned as
a copy. -/
def getCharacterMetadata (hostCharacters : Except JSError (List Character))
    (guid : String) : Except JSError (Option ExtensionBag) :=
  match hostCharacters with
  | .error _ => .ok none
  | .ok characters =>
    match characters.find? (fun c => guidMatches c guid) with
    | none => .ok none
    | some c =>
      match c.data with
      | none => .ok none
      | some d =>
        match d.extensions with
        | none => .ok none
        | some bag => .ok (some bag)

/-- C2: counterexample.  When the host slash-command system is
unavailable, the public operation `executeSlashCommand` does not return a
sentinel: it propagates the failure by throwing (the `catch` block logs
and rethrows), so not every public operation catches and returns
`undefined`/`false`/an empty collection. -/
theorem executeSlashCommand_throws :
    executeSlashCommand false (.ok "ignored")
      = .error (.plain "Slash command system not available") := rfl

/-- C2 (amended): `getCharacterMetadata` and `registerSlashCommand` catch
host failures, log them, and return a sentinel (`null` resp. `false`)
without ever throwing; but `executeSlashCommand` logs and rethrows the
host failure (and throws when the slash-command system is unavailable),
and `apiRequest` propagates network failures by throwing a
`ValueTrackerError`, so not every public operation returns a sentinel. -/
theorem wrapper_error_handling_amended :
    (∀ hostCharacters guid, ∃ v,
      getCharacterMetadata hostCharacters guid = .ok v)
  ∧ (∀ e guid, getCharacterMetadata (.error e) guid = .ok none)
  ∧ (∀ available hostAdd, ∃ b,
      registerSlashCommand available hostAdd = .ok b)
  ∧ (∀ e, registerSlashCommand true (.error e) = .ok false)
  ∧ (∀ e, executeSlashCommand true (.error e) = .error e)
  ∧ (∀ hostResult, executeSlashCommand false hostResult
      = .error (.plain "Slash command system not available"))
  ∧ (∀ endpoint opts msg, endpoint ≠ "" → ∃ e,
      apiRequest endpoint opts (.reject msg) = .error e
        ∧ e.isValueTrackerError = true) := by
  refine ⟨?_, ?_, ?_, ?_, ?_, ?_, ?_⟩
  · intro hostCharacters guid
    cases hostCharacters with
    | error e => exact ⟨none, rfl⟩
    | ok characters =>
      cases hf : characters.find? (fun c => guidMatches c guid) with
      | none => exact ⟨none, by simp [getCharacterMetadata, hf]⟩
      | some c =>
        cases hd : c.data with
        | none => exact ⟨none, by simp [getCharacterMetadata, hf, hd]⟩
        | some d =>
          cases he : d.extensions with
          | none => exact ⟨none, by simp [getCharacterMetadata, hf, hd, he]⟩
          | some bag =>
            exact ⟨some bag, by simp [getCharacterMetadata, hf, hd, he]⟩
  · intro e guid
    rfl
  · intro available hostAdd
    cases available with
    | false => exact ⟨false, rfl⟩
    | true =>
      cases hostAdd with
      | ok _ => exact ⟨true, rfl⟩
      | error _ => exact ⟨false, rfl⟩
  · intro e
    rfl
  · intro e
    rfl
  · intro hostResult
    rfl
  · intro endpoint opts msg hend
    refine ⟨.vt (networkErrorMessage msg) none
      (some { url := vtBaseUrl ++ endpoint,
              method := opts.method.getD "GET", endpoint := endpoint }), ?_, rfl⟩
    simp [apiRequest, hend]

/-- C2: witness for the amended claim at concrete inputs. -/
theorem wrapper_error_handling_amended_witness :
    getCharacterMetadata (.error (.plain "no context")) "g" = .ok none
  ∧ registerSlashCommand true (.error (.plain "boom")) = .ok false
  ∧ executeSlashCommand true (.error (.plain "boom"))
      = .error (.plain "boom")
  ∧ (∃ e, apiRequest "/characters" noOptions (.reject "down") = .error e
      ∧ e.isValueTrackerError = true) := by
  refine ⟨?_, ?_, ?_, ?_⟩
  · exact wrapper_error_handling_amended.2.1 (.plain "no context") "g"
  · exact wrapper_error_handling_amended.2.2.2.1 (.plain "boom")
  · exact wrapper_error_handling_amended.2.2.2.2.1 (.plain "boom")
  · exact wrapper_error_handling_amended.2.2.2.2.2.2 "/characters" noOptions
      "down" (by decide)

/-! ### `CharacterUtil.clearCharacterMetadata` (`character.ts`) -/

/-- Embeds `CharacterUtil.setCharacterExtensionFieldByGuid`: re-finds the
character's index by GUID and issues a `writeExtensionField(index, key,
value)` call to the host (which persists without touching the in-memory
list); throws when no character matches the GUID. -/
def setCharacterExtensionFieldByGuid (characters : List Character)
    (guid key : String) (v : JVal) : Except String (Nat × String × JVal) :=
  match characters.findIdx? (fun c => guidMatches c guid) with
  | none => .error ("Character with GUID " ++ guid ++ " not found.")
  | some i => .ok (i, key, v)

/-- The `for (const key of keys)` loop of `clearCharacterMetadata`:
clears each non-`guid` key via `setCharacterExtensionFieldByGuid`,
accumulating the issued writes; a thrown error is caught by the outer
`catch`, which returns `false`. -/
def clearLoop (characters : List Character) (guid : String) :
    List String → List (Nat × String × JVal) →
      Bool × List (Nat × String × JVal)
  | [], acc => (true, acc.reverse)
  | k :: ks, acc =>
    if k = "guid" then clearLoop characters guid ks acc
    else
      match setCharacterExtensionFieldByGuid characters guid k .undef with
      | .ok w => clearLoop characters guid ks (w :: acc)
      | .error _ => (false, acc.reverse)

/-- Embeds `CharacterUtil.clearCharacterMetadata`: finds the character by
GUID, reads `Object.keys(character.data.extensions)`, and writes
`undefined` to every key except `guid`.  Returns the boolean result and
the `writeExtensionField` calls issued. -/
def clearCharacterMetadata (characters : List Character) (guid : String) :
    Bool × List (Nat × String × JVal) :=
  match characters.find? (fun c => guidMatches c guid) with
  | none => (false, [])
  | some c =>
    match c.data.bind (fun d => d.extensions) with
    | none => (false, [])
    | some bag => clearLoop characters guid (bag.map Prod.fst) []

theorem find?_findIdx?_isSome {α : Type} (l : List α) (p : α → Bool) (a : α)
    (h : l.find? p = some a) : ∃ i, l.findIdx? p = some i := by
  induction l with
  | nil => simp [List.find?] at h
  | cons x xs ih =>
    by_cases hp : p x
    · exact ⟨0, by simp [List.findIdx?_cons, hp]⟩
    · rw [List.find?_cons_of_neg _ (by simp [hp])] at h
      obtain ⟨i, hi⟩ := ih h
      exact ⟨i + 1, by simp [List.findIdx?_cons, hp, hi]⟩

theorem clearLoop_spec (characters : List Character) (guid : String) (i : Nat)
    (hidx : characters.findIdx? (fun c => guidMatches c guid) = some i)
    (ks : List String) (acc : List (Nat × String × JVal)) :
    clearLoop characters guid ks acc =
      (true, acc.reverse ++
        (ks.filter (fun k => k ≠ "guid")).map (fun k => (i, k, JVal.undef))) := by
  induction ks generalizing acc with
  | nil => simp [clearLoop]
  | cons k rest ih =>
    by_cases hk : k = "guid"
    · simp [clearLoop, hk, ih]
    · have hset : setCharacterExtensionFieldByGuid characters guid k .undef
          = .ok (i, k, .undef) := by
        simp [setCharacterExtensionFieldByGuid, hidx]
      simp [clearLoop, hk, hset, ih]

/-- C8: for every character found by its GUID (hence with an extension
bag), `clearCharacterMetadata` returns `true`, writes `undefined` to
exactly the bag's non-`guid` keys (at the character's index, in bag
order), issues no write whose key is `guid`, and issues a write for every
non-`guid` key of the bag — so the GUID binding is untouched. -/
theorem clearCharacterMetadata_spec (characters : List Character)
    (guid : String) (c : Character) (bag : ExtensionBag)
    (hfound : characters.find? (fun ch => guidMatches ch guid) = some c)
    (hbag : c.data.bind (fun d => d.extensions) = some bag) :
    ∃ i, characters.findIdx? (fun ch => guidMatches ch guid) = some i
  ∧ (clearCharacterMetadata characters guid).1 = true
  ∧ (clearCharacterMetadata characters guid).2 =
      ((bag.map Prod.fst).filter (fun k => k ≠ "guid")).map
        (fun k => (i, k, JVal.undef))
  ∧ (∀ w ∈ (clearCharacterMetadata characters guid).2, w.2.1 ≠ "guid")
  ∧ (∀ k ∈ bag.map Prod.fst, k ≠ "guid" →
      (i, k, JVal.undef) ∈ (clearCharacterMetadata characters guid).2) := by
  obtain ⟨i, hidx⟩ := find?_findIdx?_isSome _ _ _ hfound
  have hmain : clearCharacterMetadata characters guid =
      (true, ((bag.map Prod.fst).filter (fun k => k ≠ "guid")).map
        (fun k => (i, k, JVal.undef))) := by
    simp only [clearCharacterMetadata, hfound, hbag]
    simpa using clearLoop_spec characters guid i hidx (bag.map Prod.fst) []
  refine ⟨i, hidx, by rw [hmain], by rw [hmain], ?_, ?_⟩
  · intro w hw
    rw [hmain] at hw
    simp only [List.mem_map, List.mem_filter] at hw
    obtain ⟨k, ⟨_, hk⟩, rfl⟩ := hw
    simpa using hk
  · intro k hkmem hkne
    rw [hmain]
    exact List.mem_map.mpr ⟨k, List.mem_filter.mpr ⟨hkmem, by simpa using hkne⟩, rfl⟩

/-- A concrete extension bag used to witness the metadata-clearing
behaviour: a `guid` binding plus two ordinary metadata keys. -/
def sampleBag : ExtensionBag :=
  [("guid", .str "g1"), ("mood", .str "happy"), ("score", .num 3)]

/-- A concrete character carrying `sampleBag`. -/
def sampleCharacter : Character :=
  { data := some { extensions := some sampleBag } }

/-- C8: witness.  A character carrying `guid`, `mood` and `score` keys is
cleared: the result is `true` and exactly `mood` and `score` are written
`undefined` at index 0 — `guid` is never written. -/
theorem clearCharacterMetadata_spec_witness :
    (clearCharacterMetadata [sampleCharacter] "g1").1 = true
  ∧ (clearCharacterMetadata [sampleCharacter] "g1").2
      = [(0, "mood", JVal.undef), (0, "score", JVal.undef)] := by
  obtain ⟨i, hidx, h1, h2, h3, h4⟩ := clearCharacterMetadata_spec
    [sampleCharacter] "g1" sampleCharacter sampleBag (by decide) (by decide)
  have hi : i = 0 := by
    have hsome : some i = some 0 := by rw [← hidx]; decide
    exact Option.some_injective _ hsome
  subst hi
  exact ⟨h1, by rw [h2]; decide⟩

/-! ### `SettingsManager` (`settings.ts`) -/

/-- An in-memory settings map of a `SettingsManager` (key to value); also
used for the schema, mapping each key to its default value
(`defaultSettings[key].value`). -/
abbrev SettingsMap := List (String × JVal)

/-- The host's `extensionSettings` blob: module name to settings object. -/
abbrev ExtSettings := List (String × SettingsMap)

/-- The nullish-coalescing read `x ?? d` applied to a property access:
an absent property reads as `undefined`. -/
def nullishCoalesce (x : Option JVal) (d : JVal) : JVal :=
  match x with
  | some v => if v.isNullish then d else v
  | none => d

/-- Embeds `SettingsManager.save`: creates the module's entry if absent,
then `Object.assign`s the in-memory settings over it. -/
def settingsSave (moduleName : String) (settings : SettingsMap)
    (ext : ExtSettings) : ExtSettings :=
  let cur := (alGet ext moduleName).getD []
  alSet ext moduleName (alMerge cur settings)

/-- Embeds `SettingsManager.load`: for each schema key, the stored value
unless it is nullish or absent, else the schema default. -/
def settingsLoad (moduleName : String) (schema : SettingsMap)
    (ext : ExtSettings) : SettingsMap :=
  let m := (alGet ext moduleName).getD []
  schema.map (fun p => (p.1, nullishCoalesce (alGet m p.1) p.2))

/-- Embeds `SettingsManager.get`. -/
def settingsGet (settings : SettingsMap) (key : String) : Option JVal :=
  alGet settings key

/-- Embeds `SettingsManager.set`: updates the in-memory map and saves. -/
def settingsSet (settings : SettingsMap) (key : String) (v : JVal)
    (moduleName : String) (ext : ExtSettings) : SettingsMap × ExtSettings :=
  let s' := alSet settings key v
  (s', settingsSave moduleName s' ext)

theorem alGet_alMerge_of_mem_nodup {β : Type} (base src : List (String × β))
    (k : String) (hmem : k ∈ src.map Prod.fst)
    (hnd : (src.map Prod.fst).Nodup) :
    alGet (alMerge base src) k = alGet src k := by
  induction src generalizing base with
  | nil => simp at hmem
  | cons p rest ih =>
    obtain ⟨k₀, v₀⟩ := p
    simp only [List.map_cons, List.nodup_cons] at hnd
    by_cases hk : k₀ = k
    · subst hk
      show alGet (alMerge (alSet base k₀ v₀) rest) k₀ = _
      rw [alGet_alMerge_of_not_mem _ _ _ hnd.1, alGet_alSet_self]
      simp [alGet]
    · have hmem' : k ∈ rest.map Prod.fst := by
        simpa [Ne.symm hk] using hmem
      show alGet (alMerge (alSet base k₀ v₀) rest) k = _
      rw [ih (alSet base k₀ v₀) hmem' hnd.2]
      simp [alGet, hk]

theorem settings_resolve_roundtrip (schema settings : SettingsMap)
    (hkeys : settings.map Prod.fst = schema.map Prod.fst)
    (hnd : (schema.map Prod.fst).Nodup)
    (hnn : ∀ p ∈ settings, p.2.isNullish = false) :
    schema.map (fun p => (p.1, nullishCoalesce (alGet settings p.1) p.2))
      = settings := by
  induction schema generalizing settings with
  | nil =>
    cases settings with
    | nil => rfl
    | cons q qs => simp at hkeys
  | cons p rest ih =>
    obtain ⟨k, d⟩ := p
    cases settings with
    | nil => simp at hkeys
    | cons q qs =>
      obtain ⟨k', v⟩ := q
      simp only [List.map_cons, List.cons.injEq] at hkeys
      obtain ⟨hk, hkeys'⟩ := hkeys
      subst hk
      simp only [List.map_cons, List.nodup_cons] at hnd
      have hv : v.isNullish = false := hnn (k', v) (List.mem_cons_self _ _)
      have hhead : nullishCoalesce (alGet ((k', v) :: qs) k') d = v := by
        simp [alGet, nullishCoalesce, hv]
      have htail : ∀ p ∈ rest,
          (fun p => (p.1, nullishCoalesce (alGet ((k', v) :: qs) p.1) p.2)) p
            = (fun p => (p.1, nullishCoalesce (alGet qs p.1) p.2)) p := by
        intro p hp
        have hpk : p.1 ≠ k' := by
          intro hcontra
          exact hnd.1 (hcontra ▸ List.mem_map_of_mem Prod.fst hp)
        simp [alGet, Ne.symm hpk]
      simp only [List.map_cons, hhead, List.cons.injEq]
      refine ⟨trivial, ?_⟩
      rw [List.map_congr_left htail]
      exact ih qs hkeys' hnd.2
        (fun p hp => hnn p (List.mem_cons_of_mem _ hp))

/-- C9: for a `SettingsManager` with module name `moduleName`,
`set key v` followed by `get key` yields `v`; a `save` followed by a
`load` restores the identical in-memory settings map provided no stored
value is nullish (and the settings keys are the schema keys); and `save`
writes only the `extensionSettings` entry named `moduleName`, leaving
every other module's entry unchanged. -/
theorem settingsManager_spec (schema settings : SettingsMap)
    (ext : ExtSettings) (moduleName key : String) (v : JVal) :
    settingsGet (settingsSet settings key v moduleName ext).1 key = some v
  ∧ (settings.map Prod.fst = schema.map Prod.fst →
      (schema.map Prod.fst).Nodup →
      (∀ p ∈ settings, p.2.isNullish = false) →
      settingsLoad moduleName schema (settingsSave moduleName settings ext)
        = settings)
  ∧ (∀ other, other ≠ moduleName →
      alGet (settingsSave moduleName settings ext) other = alGet ext other) := by
  refine ⟨?_, ?_, ?_⟩
  · exact alGet_alSet_self settings key v
  · intro hkeys hnd hnn
    have hmod : alGet (settingsSave moduleName settings ext) moduleName
        = some (alMerge ((alGet ext moduleName).getD []) settings) :=
      alGet_alSet_self _ _ _
    simp only [settingsLoad, hmod, Option.getD_some]
    have hcongr : ∀ p ∈ schema,
        (fun p => (p.1, nullishCoalesce
          (alGet (alMerge ((alGet ext moduleName).getD []) settings) p.1) p.2)) p
          = (fun p => (p.1, nullishCoalesce (alGet settings p.1) p.2)) p := by
      intro p hp
      have hpmem : p.1 ∈ settings.map Prod.fst := by
        rw [hkeys]
        exact List.mem_map_of_mem Prod.fst hp
      have hsnd : (settings.map Prod.fst).Nodup := by
        rw [hkeys]; exact hnd
      simp [alGet_alMerge_of_mem_nodup _ _ _ hpmem hsnd]
    rw [List.map_congr_left hcongr]
    exact settings_resolve_roundtrip schema settings hkeys hnd hnn
  · intro other hother
    exact alGet_alSet_ne ext moduleName other _ hother

/-- C9: witness.  With schema keys `a, b`, setting `a` then reading it
yields the new value; saving and loading restores the map; saving module
`m1` leaves module `m2` untouched. -/
theorem settingsManager_spec_witness :
    settingsGet
        (settingsSet [("a", .num 1), ("b", .boolean true)] "a" (.num 9)
          "m1" [("m2", [("x", .num 5)])]).1 "a" = some (.num 9)
  ∧ settingsLoad "m1" [("a", .num 0), ("b", .boolean false)]
      (settingsSave "m1" [("a", .num 1), ("b", .boolean true)]
        [("m2", [("x", .num 5)])])
      = [("a", .num 1), ("b", .boolean true)]
  ∧ alGet
      (settingsSave "m1" [("a", .num 1), ("b", .boolean true)]
        [("m2", [("x", .num 5)])]) "m2" = some [("x", .num 5)] := by
  have h := settingsManager_spec [("a", .num 0), ("b", .boolean false)]
    [("a", .num 1), ("b", .boolean true)] [("m2", [("x", .num 5)])]
    "m1" "a" (.num 9)
  refine ⟨h.1, h.2.1 (by decide) (by decide) (by decide), ?_⟩
  have h2 := h.2.2 "m2" (by decide)
  rw [h2]
  decide

/-! ### `SlashCommandsUtil.registerMultipleSlashCommands` -/

/-- A slash-command configuration as far as the registration loop reads
it (callback and options do not influence the counts). -/
structure SlashCommandConfig where
  name : String
deriving DecidableEq

/-- The result object of `registerMultipleSlashCommands`. -/
structure MultiRegResult where
  success : Nat
  failed : Nat
  failedCommands : List String
deriving DecidableEq

/-- The `for (const command of commands)` loop: `outcome i` is the boolean
`registerSlashCommand` returned for the `i`-th call (host state may vary
between calls). -/
def registerLoop (outcome : Nat → Bool) :
    Nat → Nat → List String → List SlashCommandConfig → Nat × List String
  | _, successCount, failedAcc, [] => (successCount, failedAcc.reverse)
  | i, successCount, failedAcc, cmd :: rest =>
    if outcome i then registerLoop outcome (i + 1) (successCount + 1) failedAcc rest
    else registerLoop outcome (i + 1) successCount (cmd.name :: failedAcc) rest

/-- Embeds `SlashCommandsUtil.registerMultipleSlashCommands`. -/
def registerMultipleSlashCommands (outcome : Nat → Bool)
    (commands : List SlashCommandConfig) : MultiRegResult :=
  let r := registerLoop outcome 0 0 [] commands
  { success := r.1, failed := r.2.length, failedCommands := r.2 }

theorem countP_add_countP_not {α : Type} (p : α → Bool) (l : List α) :
    l.countP p + l.countP (fun a => !p a) = l.length := by
  induction l with
  | nil => simp
  | cons a l ih =>
    by_cases h : p a <;> simp [List.countP_cons, h] <;> omega

theorem length_filter_eq_countP {α : Type} (p : α → Bool) (l : List α) :
    (l.filter p).length = l.countP p := by
  induction l with
  | nil => rfl
  | cons a l ih =>
    by_cases h : p a <;> simp [List.filter_cons, List.countP_cons, h, ih]

theorem enumFrom_length {α : Type} (n : Nat) (l : List α) :
    (List.enumFrom n l).length = l.length := by
  induction l generalizing n with
  | nil => rfl
  | cons a l ih => simp [List.enumFrom, ih]

theorem registerLoop_spec (outcome : Nat → Bool)
    (cmds : List SlashCommandConfig) (i s : Nat) (acc : List String) :
    registerLoop outcome i s acc cmds =
      (s + (List.enumFrom i cmds).countP (fun p => outcome p.1),
       acc.reverse ++
         ((List.enumFrom i cmds).filter (fun p => !outcome p.1)).map
           (fun p => p.2.name)) := by
  induction cmds generalizing i s acc with
  | nil => simp [registerLoop]
  | cons c rest ih =>
    by_cases h : outcome i
    · simp only [registerLoop, if_pos h, ih]
      rw [Prod.ext_iff]
      constructor
      · simp [List.enumFrom, List.countP_cons, h]
        omega
      · simp [List.enumFrom, List.filter_cons, h]
    · simp only [registerLoop, if_neg h, ih]
      rw [Prod.ext_iff]
      constructor
      · simp [List.enumFrom, List.countP_cons, h]
      · simp [List.enumFrom, List.filter_cons, h]

/-- C10: for every command list and every per-call outcome of
`registerSlashCommand`, the result of `registerMultipleSlashCommands`
satisfies `success + failed = length`, `failed = failedCommands.length`,
and `failedCommands` is exactly the names of the commands whose
registration returned `false`, in input order. -/
theorem registerMultipleSlashCommands_spec (outcome : Nat → Bool)
    (commands : List SlashCommandConfig) :
    (registerMultipleSlashCommands outcome commands).success
        + (registerMultipleSlashCommands outcome commands).failed
      = commands.length
  ∧ (registerMultipleSlashCommands outcome commands).failed
      = (registerMultipleSlashCommands outcome commands).failedCommands.length
  ∧ (registerMultipleSlashCommands outcome commands).failedCommands
      = ((commands.enum.filter (fun p => !outcome p.1)).map
          (fun p => p.2.name)) := by
  have hloop := registerLoop_spec outcome commands 0 0 []
  refine ⟨?_, rfl, ?_⟩
  · show (registerLoop outcome 0 0 [] commands).1
        + (registerLoop outcome 0 0 [] commands).2.length = commands.length
    rw [hloop]
    simp only [List.reverse_nil, List.nil_append, List.length_map,
      length_filter_eq_countP, Nat.zero_add]
    rw [countP_add_countP_not (fun p => outcome p.1) (List.enumFrom 0 commands)]
    exact enumFrom_length 0 commands
  · show (registerLoop outcome 0 0 [] commands).2 = _
    rw [hloop]
    simp [List.enum]

end STUtils
